import Mathlib

/-!
Verification development for the SageMaker pipe-mode dataset kernel
(`src/pipemode_op/Dataset/src/pipemode_dataset_op_kernel.cpp`).

The C++ kernel is shallowly embedded below: pure helpers become Lean
functions, the stateful pipe-index store becomes explicit state passing,
and C++ control flow that can throw becomes `Option`/`Except` or an
explicit outcome type.  The record readers (`TextLineRecordReader`,
`TFRecordReader`, `RecordIOReader`) and the `PipeStateManager` are
declared in headers that are not part of the kernel source file; where a
claim depends on them they are modelled from the specification, and each
such definition is marked in its doc comment.
-/

namespace PipeModeKernel

/-- Little-endian decimal digits of `n`, computed with explicit fuel so the
definition is structurally recursive (fuel `n` always suffices).  Together
with `decDigits` this models the decimal rendering performed by C++
`std::to_string` in `BuildPipeName`. -/
def decDigitsF : Nat → Nat → List Nat
  | 0, _ => []
  | _fuel + 1, 0 => []
  | fuel + 1, n + 1 => (n + 1) % 10 :: decDigitsF fuel ((n + 1) / 10)

/-- Little-endian decimal digits of `n` (empty for `0`). -/
def decDigits (n : Nat) : List Nat :=
  decDigitsF n n

/-- Interpret a little-endian decimal digit list back as a number; the
left inverse used to show the decimal rendering is injective. -/
def ofDecDigits : List Nat → Nat
  | [] => 0
  | d :: ds => d + 10 * ofDecDigits ds

/-- Model of C++ `std::to_string` on unsigned integers: the usual decimal
rendering, most significant digit first, with `0 ↦ "0"`. -/
def natToString (n : Nat) : String :=
  if n = 0 then "0" else ⟨((decDigits n).map Nat.digitChar).reverse⟩

/-- Embedding of `BuildPipeName` (kernel source, lines 57–66):
`pipe_name = channel_name + "_" + std::to_string(pipe_index)`; the
channel directory gets a `'/'` appended unless its last character already
is one, and the pipe name is appended to that.  The C++ code reads
`channel_path[channel_path.length() - 1]`, which for an empty
`channel_directory` indexes out of bounds (the index underflows); that
undefined behaviour is modelled by returning `none`. -/
def buildPipeName (channel_directory channel_name : String) (pipe_index : Nat) : Option String :=
  match channel_directory.data.getLast? with
  | none => none
  | some lastChar =>
    let pipe_name := channel_name ++ "_" ++ natToString pipe_index
    let channel_path := if lastChar = '/' then channel_directory else channel_directory ++ "/"
    some (channel_path ++ pipe_name)

/-- Error raised by `MakeDataset` when the format tag is rejected
(`tensorflow::errors::InvalidArgument`). -/
inductive PipeError : Type where
  | invalidArgument (msg : String)
deriving DecidableEq

/-- The state held by `PipeModeDatasetOp::Dataset` after construction: the
four scalar string arguments.  The `PipeStateManager` member is modelled
separately as explicit `Nat` state (see `makeIterator`). -/
structure Dataset : Type where
  record_format : String
  state_directory : String
  channel_directory : String
  channel : String
deriving DecidableEq

/-- Embedding of `PipeModeDatasetOp::MakeDataset` (kernel source, lines
81–97): after parsing the four scalar arguments, `OP_REQUIRES` checks
`record_format == "RecordIO" || record_format == "TFRecord" ||
record_format == "TextLine"` and fails with
`InvalidArgument("Invalid record format: " + record_format)` otherwise;
only on success is the `Dataset` constructed.  `MakeDataset` itself opens
no FIFO and constructs no record reader: those happen only in the
`Iterator` constructor (`mkIterator` below), which can only be reached
through a successfully constructed `Dataset`. -/
def makeDataset (record_format state_directory channel_directory channel : String) :
    Except PipeError Dataset :=
  if record_format = "RecordIO" ∨ record_format = "TFRecord" ∨ record_format = "TextLine" then
    Except.ok ⟨record_format, state_directory, channel_directory, channel⟩
  else
    Except.error (PipeError.invalidArgument ("Invalid record format: " ++ record_format))

/-- The three record-reader classes the iterator constructor can select. -/
inductive ReaderKind : Type where
  | RecordIOReader
  | TFRecordReader
  | TextLineRecordReader
deriving DecidableEq

/-- Embedding of the reader selection in the `Iterator` constructor
(kernel source, lines 151–157): `if (record_format == "RecordIO") … else
if (record_format == "TFRecord") … else TextLineRecordReader`.  A total
function: every string selects some reader, and every string other than
the two checked literals selects the text-line reader. -/
def selectReaderKind (record_format : String) : ReaderKind :=
  if record_format = "RecordIO" then ReaderKind.RecordIOReader
  else if record_format = "TFRecord" then ReaderKind.TFRecordReader
  else ReaderKind.TextLineRecordReader

/-- What the `Iterator` constructor computes: the pipe index it was given,
the FIFO path produced by `BuildPipeName`, and the reader variant it
constructs over that path. -/
structure IteratorHandle : Type where
  pipe_index : Nat
  pipe_path : Option String
  reader_kind : ReaderKind
deriving DecidableEq

/-- Embedding of the `Iterator` constructor (kernel source, lines
147–158): it builds the pipe path with `BuildPipeName` and selects the
reader variant from the format tag. -/
def mkIterator (record_format channel_directory channel : String) (pipe_index : Nat) :
    IteratorHandle :=
  ⟨pipe_index, buildPipeName channel_directory channel pipe_index, selectReaderKind record_format⟩

/-- Embedding of `Dataset::MakeIterator` (kernel source, lines 110–118)
with the pipe-index store passed as explicit state.  Modelled from the
spec: `PipeStateManager` (`GetPipeIndex`/`IncrementPipeIndex`) is declared
in a header that is not part of this source file; per the specification
(§4.3) it is a non-negative integer counter that `IncrementPipeIndex`
advances by one.  `MakeIterator` constructs the iterator with the current
index and then increments the store. -/
def makeIterator (d : Dataset) (pipe_index : Nat) : IteratorHandle × Nat :=
  (mkIterator d.record_format d.channel_directory d.channel pipe_index, pipe_index + 1)

/-- The store value before the `k`-th `MakeIterator` call on one dataset,
starting from persisted index `i0`. -/
def iterStore (d : Dataset) (i0 : Nat) : Nat → Nat
  | 0 => i0
  | k + 1 => (makeIterator d (iterStore d i0 k)).2

/-- The iterator produced by the `k`-th `MakeIterator` call on one
dataset, starting from persisted index `i0`. -/
def kthIterator (d : Dataset) (i0 : Nat) (k : Nat) : IteratorHandle :=
  (makeIterator d (iterStore d i0 k)).1

/-- The host status values `GetNextInternal` can return: `Status::OK()`
or `Status(tensorflow::error::INTERNAL, msg)`. -/
inductive TFStatus : Type where
  | ok
  | internal (msg : String)
deriving DecidableEq

/-- Outcome of one `RecordReader::ReadRecord` call: a record was read,
the stream is exhausted (`ReadRecord` returned `false`), or a
`std::runtime_error` was thrown. -/
inductive ReadOutcome : Type where
  | record (s : String)
  | eof
  | failure (msg : String)
deriving DecidableEq

/-- Modelled from the spec: the `RecordReader` capability
(`read_next_record(stream) -> Option<Bytes>`, §4.1) behind which the
three reader classes sit.  The reader headers are not part of this source
file, so a reader is any state machine `σ` with a `ReadRecord` step that
either yields a record, reports exhaustion, or throws. -/
structure RecordReader (σ : Type) : Type where
  readRecord : σ → ReadOutcome × σ

/-- Result of one `GetNextInternal` call: the returned status, the
tensors appended to `out_tensors` by this call (each a scalar string),
and the value stored into `*end_of_sequence`. -/
structure GetNextResult : Type where
  status : TFStatus
  out_tensors : List String
  end_of_sequence : Bool
deriving DecidableEq

/-- Embedding of `Iterator::GetNextInternal` (kernel source, lines
160–177): `*end_of_sequence` is first set to `false`; if
`ReadRecord(storage)` returns `true` the tensor is appended and `OK` is
returned; if it returns `false`, `*end_of_sequence` is set to `true` and
`OK` is returned; if it throws, `Status(INTERNAL, err.what())` is
returned with nothing appended and `*end_of_sequence` still `false`.
The per-instance mutex only serializes calls on one iterator and is
elided in this single-threaded model.  Note the function keeps no
terminal flag of its own: every call invokes `ReadRecord` afresh. -/
def getNextInternal {σ : Type} (r : RecordReader σ) (s : σ) : GetNextResult × σ :=
  match r.readRecord s with
  | (ReadOutcome.record v, s') => (⟨TFStatus.ok, [v], false⟩, s')
  | (ReadOutcome.eof, s') => (⟨TFStatus.ok, [], true⟩, s')
  | (ReadOutcome.failure m, s') => (⟨TFStatus.internal m, [], false⟩, s')

/-- A reader that replays a fixed script of `ReadRecord` outcomes and
reports exhaustion afterwards.  The specification's decoder contract
(§4.1) constrains each call's outcome, not the sequence across calls, so
any script is a legitimate reader behaviour; scripts are used to exercise
`getNextInternal` on each branch. -/
def scriptReader : RecordReader (List ReadOutcome) :=
  ⟨fun s => match s with
    | [] => (ReadOutcome.eof, [])
    | o :: rest => (o, rest)⟩

/-- Outcome of `Dataset::AsGraphDefInternal`: either a C++ exception
escapes, or a `Status` is returned to the caller. -/
inductive GraphDefOutcome : Type where
  | thrownException (msg : String)
  | returnedStatus (s : TFStatus)
deriving DecidableEq

/-- Embedding of `Dataset::AsGraphDefInternal` (kernel source, lines
134–137): unconditionally
`throw std::runtime_error("Conversion to GraphDef is not supported.")` —
the exception escapes instead of a `Status` being returned. -/
def asGraphDefInternal (_d : Dataset) : GraphDefOutcome :=
  GraphDefOutcome.thrownException "Conversion to GraphDef is not supported."

/-- A concrete dataset used to instantiate claims at specific inputs. -/
def sampleDataset : Dataset :=
  ⟨"TFRecord", "/opt/ml/state", "/opt/ml/input/data/train", "train"⟩

/-- Modelled from the spec: the per-record core of
`TextLineRecordReader::ReadRecord` (§4.1 TextLine variant), whose header
is not part of this source file: scan to the first line-feed byte; the
record is everything before it and the delimiter itself is consumed.  If
no delimiter occurs the whole input is the record and nothing remains. -/
def splitOnLF : List Char → List Char × List Char
  | [] => ([], [])
  | c :: cs =>
    if c = '\n' then ([], cs)
    else
      let p := splitOnLF cs
      (c :: p.1, p.2)

/-- Modelled from the spec: one `read_next_record` call of the text-line
decoder — on an exhausted stream signal end-of-stream, otherwise return
the bytes before the first line-feed (delimiter excluded) and the rest of
the stream. -/
def readTextLineRecord : List Char → Option (List Char × List Char)
  | [] => none
  | c :: cs => some (splitOnLF (c :: cs))

/-- All records obtained by calling the text-line decoder until
end-of-stream, with explicit fuel to keep the recursion structural (the
input length always suffices as fuel, since each successful read consumes
at least one character). -/
def readAllAux : Nat → List Char → List (List Char)
  | 0, _ => []
  | _fuel + 1, [] => []
  | fuel + 1, c :: cs =>
    let p := splitOnLF (c :: cs)
    p.1 :: readAllAux fuel p.2

/-- The full record sequence the text-line decoder extracts from a byte
stream. -/
def readAllRecords (l : List Char) : List (List Char) :=
  readAllAux l.length l

/-- `readAllRecords` on a string, returning records as strings. -/
def textLineRecords (s : String) : List String :=
  (readAllRecords s.data).map String.mk

theorem ofDecDigits_decDigitsF : ∀ fuel n, n ≤ fuel → ofDecDigits (decDigitsF fuel n) = n := by
  intro fuel
  induction fuel with
  | zero =>
    intro n hn
    interval_cases n
    rfl
  | succ fuel ih =>
    intro n hn
    match n with
    | 0 => rfl
    | n + 1 =>
      have hdiv : (n + 1) / 10 ≤ fuel := by
        have h1 : (n + 1) / 10 < n + 1 := Nat.div_lt_self (Nat.succ_pos n) (by decide)
        omega
      simp only [decDigitsF, ofDecDigits, ih _ hdiv]
      omega

theorem ofDecDigits_decDigits (n : Nat) : ofDecDigits (decDigits n) = n :=
  ofDecDigits_decDigitsF n n (Nat.le_refl n)

theorem decDigitsF_lt_ten : ∀ fuel n d, d ∈ decDigitsF fuel n → d < 10 := by
  intro fuel
  induction fuel with
  | zero => intro n d hd; simp [decDigitsF] at hd
  | succ fuel ih =>
    intro n d hd
    match n with
    | 0 => simp [decDigitsF] at hd
    | n + 1 =>
      simp only [decDigitsF, List.mem_cons] at hd
      rcases hd with h | h
      · subst h; exact Nat.mod_lt _ (by decide)
      · exact ih _ _ h

theorem digitChar_inj_lt (a b : Nat) (ha : a < 10) (hb : b < 10)
    (h : Nat.digitChar a = Nat.digitChar b) : a = b := by
  have key : ∀ x y : Fin 10, Nat.digitChar x.val = Nat.digitChar y.val → x = y := by decide
  have := key ⟨a, ha⟩ ⟨b, hb⟩ h
  exact congrArg Fin.val this

theorem map_digitChar_inj : ∀ l₁ l₂ : List Nat, (∀ d ∈ l₁, d < 10) → (∀ d ∈ l₂, d < 10) →
    l₁.map Nat.digitChar = l₂.map Nat.digitChar → l₁ = l₂ := by
  intro l₁
  induction l₁ with
  | nil =>
    intro l₂ _ _ h
    cases l₂ with
    | nil => rfl
    | cons b bs => simp at h
  | cons a as ih =>
    intro l₂ h₁ h₂ h
    cases l₂ with
    | nil => simp at h
    | cons b bs =>
      simp only [List.map_cons, List.cons.injEq] at h
      have ha : a = b :=
        digitChar_inj_lt a b (h₁ a (List.mem_cons_self a as)) (h₂ b (List.mem_cons_self b bs)) h.1
      have hs : as = bs :=
        ih bs (fun d hd => h₁ d (List.mem_cons_of_mem a hd))
          (fun d hd => h₂ d (List.mem_cons_of_mem b hd)) h.2
      rw [ha, hs]

theorem natToString_inj (m n : Nat) (h : natToString m = natToString n) : m = n := by
  unfold natToString at h
  by_cases hm : m = 0 <;> by_cases hn : n = 0
  · omega
  · exfalso
    simp only [hm, if_pos rfl, if_neg hn] at h
    have hdata : ['0'] = ((decDigits n).map Nat.digitChar).reverse := congrArg String.data h
    have hrev : ((decDigits n).map Nat.digitChar) = ['0'] := by
      have := congrArg List.reverse hdata
      simpa using this.symm
    match hd : decDigits n with
    | [] => rw [hd] at hrev; simp at hrev
    | [d] =>
      rw [hd] at hrev
      simp only [List.map_cons, List.map_nil, List.cons.injEq] at hrev
      have hd10 : d < 10 := decDigitsF_lt_ten n n d (by rw [← decDigits, hd]; exact List.mem_singleton.mpr rfl)
      have : d = 0 := digitChar_inj_lt d 0 hd10 (by decide) (by simpa [Nat.digitChar] using hrev.1)
      have hzero : ofDecDigits (decDigits n) = 0 := by rw [hd, this]; rfl
      rw [ofDecDigits_decDigits] at hzero
      exact hn hzero
    | d₁ :: d₂ :: ds => rw [hd] at hrev; simp at hrev
  · exfalso
    simp only [hn, if_pos rfl, if_neg hm] at h
    have hdata : ((decDigits m).map Nat.digitChar).reverse = ['0'] := congrArg String.data h
    have hrev : ((decDigits m).map Nat.digitChar) = ['0'] := by
      have := congrArg List.reverse hdata
      simpa using this
    match hd : decDigits m with
    | [] => rw [hd] at hrev; simp at hrev
    | [d] =>
      rw [hd] at hrev
      simp only [List.map_cons, List.map_nil, List.cons.injEq] at hrev
      have hd10 : d < 10 := decDigitsF_lt_ten m m d (by rw [← decDigits, hd]; exact List.mem_singleton.mpr rfl)
      have : d = 0 := digitChar_inj_lt d 0 hd10 (by decide) (by simpa [Nat.digitChar] using hrev.1)
      have hzero : ofDecDigits (decDigits m) = 0 := by rw [hd, this]; rfl
      rw [ofDecDigits_decDigits] at hzero
      exact hm hzero
    | d₁ :: d₂ :: ds => rw [hd] at hrev; simp at hrev
  · simp only [if_neg hm, if_neg hn] at h
    have hdata : ((decDigits m).map Nat.digitChar).reverse =
        ((decDigits n).map Nat.digitChar).reverse := congrArg String.data h
    have hmap := List.reverse_injective hdata
    have hdig := map_digitChar_inj _ _ (fun d hd => decDigitsF_lt_ten m m d hd)
      (fun d hd => decDigitsF_lt_ten n n d hd) hmap
    have heq := congrArg ofDecDigits hdig
    have h1 := ofDecDigits_decDigitsF m m (Nat.le_refl m)
    have h2 := ofDecDigits_decDigitsF n n (Nat.le_refl n)
    omega

theorem data_append (s t : String) : (s ++ t).data = s.data ++ t.data := by
  cases s; cases t; rfl

theorem string_ext {s t : String} (h : s.data = t.data) : s = t := by
  cases s; cases t; exact congrArg String.mk h

theorem str_append_assoc (a b c : String) : (a ++ b) ++ c = a ++ (b ++ c) := by
  apply string_ext
  simp only [data_append, List.append_assoc]

theorem str_append_cancel_left {a b c : String} (h : a ++ b = a ++ c) : b = c := by
  apply string_ext
  have hd := congrArg String.data h
  rw [data_append, data_append] at hd
  exact List.append_cancel_left hd

theorem exists_getLast?_of_ne_nil {α : Type} {l : List α} (h : l ≠ []) :
    ∃ a, l.getLast? = some a := by
  cases hl : l.getLast? with
  | none => exact absurd (List.getLast?_eq_none_iff.mp hl) h
  | some a => exact ⟨a, rfl⟩

theorem buildPipeName_of_last {cd : String} {c : Char} (h : cd.data.getLast? = some c)
    (cn : String) (i : Nat) :
    buildPipeName cd cn i =
      some ((if c = '/' then cd else cd ++ "/") ++ (cn ++ "_" ++ natToString i)) := by
  unfold buildPipeName
  rw [h]

theorem iterStore_eq (d : Dataset) (i0 : Nat) : ∀ k, iterStore d i0 k = i0 + k := by
  intro k
  induction k with
  | zero => rfl
  | succ k ih =>
    show (makeIterator d (iterStore d i0 k)).2 = i0 + (k + 1)
    rw [ih]
    show (i0 + k) + 1 = i0 + (k + 1)
    omega

theorem kthIterator_pipe_index (d : Dataset) (i0 n : Nat) :
    (kthIterator d i0 n).pipe_index = i0 + n :=
  iterStore_eq d i0 n

theorem kthIterator_pipe_path (d : Dataset) (i0 n : Nat) :
    (kthIterator d i0 n).pipe_path = buildPipeName d.channel_directory d.channel (i0 + n) := by
  show buildPipeName d.channel_directory d.channel (iterStore d i0 n) = _
  rw [iterStore_eq]

theorem splitOnLF_append_lf (l rest : List Char) (hl : '\n' ∉ l) :
    splitOnLF (l ++ '\n' :: rest) = (l, rest) := by
  induction l with
  | nil => simp [splitOnLF]
  | cons c cs ih =>
    have hc : c ≠ '\n' := fun h => hl (h ▸ List.mem_cons_self c cs)
    have hcs : '\n' ∉ cs := fun h => hl (List.mem_cons_of_mem c h)
    simp [splitOnLF, hc, ih hcs]

theorem splitOnLF_no_lf (l : List Char) (hl : '\n' ∉ l) : splitOnLF l = (l, []) := by
  induction l with
  | nil => rfl
  | cons c cs ih =>
    have hc : c ≠ '\n' := fun h => hl (h ▸ List.mem_cons_self c cs)
    have hcs : '\n' ∉ cs := fun h => hl (List.mem_cons_of_mem c h)
    simp [splitOnLF, hc, ih hcs]

theorem splitOnLF_snd_le (l : List Char) : (splitOnLF l).2.length ≤ l.length := by
  induction l with
  | nil => simp [splitOnLF]
  | cons c cs ih =>
    by_cases hc : c = '\n'
    · simp only [splitOnLF, if_pos hc, List.length_cons]
      omega
    · simp only [splitOnLF, if_neg hc, List.length_cons]
      omega

theorem splitOnLF_cons_le (c : Char) (cs : List Char) :
    (splitOnLF (c :: cs)).2.length ≤ cs.length := by
  by_cases hc : c = '\n'
  · simp [splitOnLF, hc]
  · simp only [splitOnLF, if_neg hc]
    exact splitOnLF_snd_le cs

theorem readAllAux_congr : ∀ f₁ f₂ l, l.length ≤ f₁ → l.length ≤ f₂ →
    readAllAux f₁ l = readAllAux f₂ l := by
  intro f₁
  induction f₁ with
  | zero =>
    intro f₂ l h1 _
    have : l = [] := List.eq_nil_of_length_eq_zero (Nat.le_zero.mp h1)
    subst this
    cases f₂ <;> rfl
  | succ f ih =>
    intro f₂ l h1 h2
    cases l with
    | nil => cases f₂ <;> rfl
    | cons c cs =>
      cases f₂ with
      | zero => simp at h2
      | succ g =>
        simp only [readAllAux]
        congr 1
        have hc := splitOnLF_cons_le c cs
        simp only [List.length_cons] at h1 h2
        exact ih g _ (by omega) (by omega)

theorem readAllRecords_step (x : List Char) (hx : x ≠ []) :
    readAllRecords x = (splitOnLF x).1 :: readAllRecords (splitOnLF x).2 := by
  cases x with
  | nil => exact absurd rfl hx
  | cons c cs =>
    show readAllAux (cs.length + 1) (c :: cs) = _
    show (splitOnLF (c :: cs)).1 :: readAllAux cs.length (splitOnLF (c :: cs)).2 = _
    congr 1
    exact readAllAux_congr cs.length (splitOnLF (c :: cs)).2.length (splitOnLF (c :: cs)).2
      (splitOnLF_cons_le c cs) (Nat.le_refl _)

theorem readAllRecords_split (l rest : List Char) (hl : '\n' ∉ l) :
    readAllRecords (l ++ '\n' :: rest) = l :: readAllRecords rest := by
  have hx : l ++ '\n' :: rest ≠ [] := by cases l <;> simp
  rw [readAllRecords_step _ hx, splitOnLF_append_lf l rest hl]

theorem readAllRecords_trailing (l : List Char) (hne : l ≠ []) (hl : '\n' ∉ l) :
    readAllRecords l = [l] := by
  rw [readAllRecords_step l hne, splitOnLF_no_lf l hl]
  rfl

/-- Claim C1: construction validates the format tag at the boundary —
`MakeDataset` succeeds exactly for the tags `"RecordIO"`, `"TFRecord"`
and `"TextLine"`, and for any other tag it fails with the
`InvalidArgument` error `"Invalid record format: " ++ tag`.  The failure
happens before any FIFO is opened: `MakeDataset` opens no FIFO and
constructs no reader itself (`buildPipeName` and `selectReaderKind` are
only reached through `mkIterator`, which requires the `Dataset` that is
never produced in the error case). -/
theorem C1_format_tag_validated (f sd cd ch : String) :
    ((∃ d, makeDataset f sd cd ch = Except.ok d) ↔
      f = "RecordIO" ∨ f = "TFRecord" ∨ f = "TextLine") ∧
    (f ≠ "RecordIO" → f ≠ "TFRecord" → f ≠ "TextLine" →
      makeDataset f sd cd ch =
        Except.error (PipeError.invalidArgument ("Invalid record format: " ++ f))) := by
  unfold makeDataset
  by_cases h : f = "RecordIO" ∨ f = "TFRecord" ∨ f = "TextLine"
  · rw [if_pos h]
    exact ⟨⟨fun _ => h, fun _ => ⟨_, rfl⟩⟩, fun h1 h2 h3 => absurd h (by tauto)⟩
  · rw [if_neg h]
    refine ⟨⟨fun he => ?_, fun hf => absurd hf h⟩, fun _ _ _ => rfl⟩
    obtain ⟨d, hd⟩ := he
    exact Except.noConfusion hd

/-- Witness for C1: the tag `"CSV"` is rejected with the exact
`InvalidArgument` message, while `"TFRecord"` is accepted. -/
theorem C1_witness :
    makeDataset "CSV" "/state" "/dir" "train" =
      Except.error (PipeError.invalidArgument ("Invalid record format: " ++ "CSV")) ∧
    (∃ d, makeDataset "TFRecord" "/state" "/dir" "train" = Except.ok d) :=
  ⟨(C1_format_tag_validated "CSV" "/state" "/dir" "train").2
      (by decide) (by decide) (by decide),
   (C1_format_tag_validated "TFRecord" "/state" "/dir" "train").1.mpr
      (Or.inr (Or.inl rfl))⟩

/-- Claim C2 (counterexample): the claim asserts that once `next()` has
returned an error, every subsequent call returns the identical terminal
result and a failed pull is never followed by further records.
`GetNextInternal` keeps no terminal latch: for a reader whose next
`ReadRecord` after a throw yields a record — a behaviour the decoder
contract leaves open — the call after the failed pull returns a record
with `OK`, not the same error. -/
theorem C2_counterexample :
    (getNextInternal scriptReader
        [ReadOutcome.failure "corrupt record", ReadOutcome.record "r1"]).1.status =
      TFStatus.internal "corrupt record" ∧
    (getNextInternal scriptReader
        (getNextInternal scriptReader
          [ReadOutcome.failure "corrupt record", ReadOutcome.record "r1"]).2).1 =
      ⟨TFStatus.ok, ["r1"], false⟩ := by
  decide

/-- Claim C2 (amended): `GetNextInternal` maintains no terminal state of
its own — every call re-invokes `ReadRecord` — so a terminal result
(end-of-stream or error) repeats on the next call exactly when the
underlying reader repeats that outcome from the state it was left in;
under that hypothesis the subsequent call returns the identical result
and leaves the state unchanged. -/
theorem C2_terminal_idempotent_iff_reader_repeats {σ : Type} (r : RecordReader σ)
    (s s' : σ) (out : ReadOutcome)
    (hterm : out = ReadOutcome.eof ∨ ∃ m, out = ReadOutcome.failure m)
    (h1 : r.readRecord s = (out, s')) (h2 : r.readRecord s' = (out, s')) :
    getNextInternal r s' = getNextInternal r s ∧ (getNextInternal r s).2 = s' := by
  rcases hterm with he | ⟨m, hf⟩
  · subst he
    have g1 : getNextInternal r s = (⟨TFStatus.ok, [], true⟩, s') := by
      unfold getNextInternal; rw [h1]
    have g2 : getNextInternal r s' = (⟨TFStatus.ok, [], true⟩, s') := by
      unfold getNextInternal; rw [h2]
    rw [g1, g2]
    exact ⟨rfl, rfl⟩
  · subst hf
    have g1 : getNextInternal r s = (⟨TFStatus.internal m, [], false⟩, s') := by
      unfold getNextInternal; rw [h1]
    have g2 : getNextInternal r s' = (⟨TFStatus.internal m, [], false⟩, s') := by
      unfold getNextInternal; rw [h2]
    rw [g1, g2]
    exact ⟨rfl, rfl⟩

/-- Witness for the amended C2: a reader with one scripted end-of-stream
outcome keeps reporting end-of-stream, and the two consecutive
`GetNextInternal` calls return the identical terminal result. -/
theorem C2_witness :
    getNextInternal scriptReader ([] : List ReadOutcome) =
      getNextInternal scriptReader [ReadOutcome.eof] ∧
    (getNextInternal scriptReader [ReadOutcome.eof]).2 = [] :=
  C2_terminal_idempotent_iff_reader_repeats scriptReader [ReadOutcome.eof] []
    ReadOutcome.eof (Or.inl rfl) rfl rfl

/-- Claim C3 (counterexample): the claim quantifies over every base
directory string, but for the empty base directory `BuildPipeName`
indexes `channel_path[length() - 1]` out of bounds (modelled as `none`),
so the result is not the claimed `"" ++ "/" ++ "train" ++ "_" ++ "2"`. -/
theorem C3_counterexample :
    buildPipeName "" "train" 2 = none ∧
    buildPipeName "" "train" 2 ≠ some ("" ++ "/" ++ "train" ++ "_" ++ natToString 2) := by
  decide

/-- Claim C3 (amended): for every non-empty base directory, the FIFO path
is `base ++ "/" ++ channel ++ "_" ++ decimal(index)` with exactly one
separator inserted when the base lacks a trailing slash, and appending a
trailing slash to such a base yields the identical result. -/
theorem C3_fifo_path_formation (b c : String) (i : Nat) (hb : b.data ≠ [])
    (hs : b.data.getLast? ≠ some '/') :
    buildPipeName b c i = some (b ++ "/" ++ c ++ "_" ++ natToString i) ∧
    buildPipeName (b ++ "/") c i = buildPipeName b c i := by
  obtain ⟨ch, hch⟩ := exists_getLast?_of_ne_nil hb
  have hne : ch ≠ '/' := fun he => hs (he ▸ hch)
  have hb1 : buildPipeName b c i = some ((b ++ "/") ++ (c ++ "_" ++ natToString i)) := by
    rw [buildPipeName_of_last hch, if_neg hne]
  have hslash : (b ++ "/").data.getLast? = some '/' := by
    rw [data_append]
    exact List.getLast?_append_cons b.data '/' []
  have hb2 : buildPipeName (b ++ "/") c i =
      some ((b ++ "/") ++ (c ++ "_" ++ natToString i)) := by
    rw [buildPipeName_of_last hslash, if_pos rfl]
  refine ⟨?_, by rw [hb1, hb2]⟩
  rw [hb1]
  congr 1
  simp only [str_append_assoc]

/-- Witness for C3 at the spec's example: base `"/tmp/chan"`, channel
`"train"`, index `2`; with and without the trailing slash. -/
theorem C3_witness :
    buildPipeName "/tmp/chan" "train" 2 =
      some ("/tmp/chan" ++ "/" ++ "train" ++ "_" ++ natToString 2) ∧
    buildPipeName ("/tmp/chan" ++ "/") "train" 2 = buildPipeName "/tmp/chan" "train" 2 :=
  C3_fifo_path_formation "/tmp/chan" "train" 2 (by decide) (by decide)

/-- Claim C4: the pipe index advances with each `MakeIterator` call — the
`k`-th iterator on one dataset is constructed with a strictly smaller
pipe index than the `(k+1)`-th — and (for a non-empty channel directory,
where `BuildPipeName` is defined) two distinct iterator creations never
target the same FIFO path. -/
theorem C4_pipe_index_increases (d : Dataset) (i0 k j : Nat) :
    (kthIterator d i0 k).pipe_index < (kthIterator d i0 (k + 1)).pipe_index ∧
    (d.channel_directory.data ≠ [] → j ≠ k →
      (kthIterator d i0 j).pipe_path ≠ (kthIterator d i0 k).pipe_path) := by
  constructor
  · rw [kthIterator_pipe_index, kthIterator_pipe_index]
    omega
  · intro hb hjk heq
    rw [kthIterator_pipe_path, kthIterator_pipe_path] at heq
    obtain ⟨ch, hch⟩ := exists_getLast?_of_ne_nil hb
    rw [buildPipeName_of_last hch, buildPipeName_of_last hch] at heq
    have heq2 := Option.some.inj heq
    have hcan := str_append_cancel_left heq2
    have hcan2 := str_append_cancel_left hcan
    have := natToString_inj _ _ hcan2
    exact hjk (by omega)

/-- Witness for C4: on a concrete dataset starting from persisted index
`0`, the first iterator gets index `0`, the second index `1`, and their
FIFO paths differ. -/
theorem C4_witness :
    (kthIterator sampleDataset 0 0).pipe_index < (kthIterator sampleDataset 0 1).pipe_index ∧
    (kthIterator sampleDataset 0 1).pipe_path ≠ (kthIterator sampleDataset 0 0).pipe_path :=
  ⟨(C4_pipe_index_increases sampleDataset 0 0 1).1,
   (C4_pipe_index_increases sampleDataset 0 0 1).2 (by decide) (by decide)⟩

/-- Claim C5: the claim states that `AsGraphDefInternal` returns an
explicit "not supported" status to the caller rather than aborting.  The
code instead throws an unconditional
`std::runtime_error("Conversion to GraphDef is not supported.")` that
escapes the function, so no `Status` is ever returned: evaluating the
embedding at a concrete dataset yields the thrown-exception outcome,
which is a different constructor from every `returnedStatus`. -/
theorem C5_asgraphdef_throws :
    asGraphDefInternal sampleDataset =
      GraphDefOutcome.thrownException "Conversion to GraphDef is not supported." :=
  rfl

/-- Claim C6: when `ReadRecord` throws, `GetNextInternal` returns a
non-OK status carrying the error's message, appends no record, and
leaves `*end_of_sequence` false — the error is surfaced as the failure
of that pull, not swallowed, retried, or conflated with end-of-stream. -/
theorem C6_reader_error_surfaced {σ : Type} (r : RecordReader σ) (s s' : σ) (m : String)
    (h : r.readRecord s = (ReadOutcome.failure m, s')) :
    getNextInternal r s = (⟨TFStatus.internal m, [], false⟩, s') := by
  unfold getNextInternal
  rw [h]

/-- Witness for C6: a scripted reader whose first `ReadRecord` throws
`"bad checksum"` makes the pull fail with exactly that message, no
record, and `end_of_sequence = false`. -/
theorem C6_witness :
    getNextInternal scriptReader [ReadOutcome.failure "bad checksum"] =
      (⟨TFStatus.internal "bad checksum", [], false⟩, []) :=
  C6_reader_error_surfaced scriptReader [ReadOutcome.failure "bad checksum"] []
    "bad checksum" rfl

/-- Claim C7: every `GetNextInternal` call follows the value-or-done
contract — if the reader yields a record, exactly that one scalar-string
record is appended and `end_of_sequence` is false; if the reader reports
no further record, nothing is appended and `end_of_sequence` is true;
and every `OK` call is exactly one of the two (never both a record and
the done signal, never neither). -/
theorem C7_value_or_done {σ : Type} (r : RecordReader σ) (s : σ) :
    (∀ v s', r.readRecord s = (ReadOutcome.record v, s') →
      getNextInternal r s = (⟨TFStatus.ok, [v], false⟩, s')) ∧
    (∀ s', r.readRecord s = (ReadOutcome.eof, s') →
      getNextInternal r s = (⟨TFStatus.ok, [], true⟩, s')) ∧
    (∀ res s', getNextInternal r s = (res, s') → res.status = TFStatus.ok →
      (res.end_of_sequence = false ∧ ∃ v, res.out_tensors = [v]) ∨
      (res.end_of_sequence = true ∧ res.out_tensors = [])) := by
  refine ⟨fun v s' h => by unfold getNextInternal; rw [h],
          fun s' h => by unfold getNextInternal; rw [h], ?_⟩
  intro res s' h hok
  rcases hr : r.readRecord s with ⟨out, st⟩
  cases out with
  | record v =>
    have hgn : getNextInternal r s = (⟨TFStatus.ok, [v], false⟩, st) := by
      unfold getNextInternal; rw [hr]
    rw [hgn] at h
    injection h with h1 h2
    rw [← h1]
    exact Or.inl ⟨rfl, v, rfl⟩
  | eof =>
    have hgn : getNextInternal r s = (⟨TFStatus.ok, [], true⟩, st) := by
      unfold getNextInternal; rw [hr]
    rw [hgn] at h
    injection h with h1 h2
    rw [← h1]
    exact Or.inr ⟨rfl, rfl⟩
  | failure m =>
    have hgn : getNextInternal r s = (⟨TFStatus.internal m, [], false⟩, st) := by
      unfold getNextInternal; rw [hr]
    rw [hgn] at h
    injection h with h1 h2
    rw [← h1] at hok
    exact absurd hok (by simp)

/-- Witness for C7: a scripted reader yielding one record produces
exactly that record with `end_of_sequence = false`; an exhausted reader
produces no record with `end_of_sequence = true`. -/
theorem C7_witness :
    getNextInternal scriptReader [ReadOutcome.record "payload"] =
      (⟨TFStatus.ok, ["payload"], false⟩, []) ∧
    getNextInternal scriptReader ([] : List ReadOutcome) = (⟨TFStatus.ok, [], true⟩, []) :=
  ⟨(C7_value_or_done scriptReader [ReadOutcome.record "payload"]).1 "payload" [] rfl,
   (C7_value_or_done scriptReader ([] : List ReadOutcome)).2.1 [] rfl⟩

/-- Claim C8: the text-line decoder splits on line-feed bytes with the
delimiter excluded and returns a non-empty trailing fragment as a final
record: a fragment followed by a line feed is one record followed by the
decoding of the rest, a non-empty delimiter-free tail is a final record,
and on the spec's examples `"a\nb\nc"` yields `["a","b","c"]`,
`"a\nb\n"` yields `["a","b"]`, and `""` yields no records. -/
theorem C8_textline_decoder (l rest : List Char) (hl : '\n' ∉ l) :
    readAllRecords (l ++ '\n' :: rest) = l :: readAllRecords rest ∧
    (l ≠ [] → readAllRecords l = [l]) ∧
    textLineRecords "a\nb\nc" = ["a", "b", "c"] ∧
    textLineRecords "a\nb\n" = ["a", "b"] ∧
    textLineRecords "" = ([] : List String) :=
  ⟨readAllRecords_split l rest hl, fun hne => readAllRecords_trailing l hne hl,
   by decide, by decide, by decide⟩

/-- Witness for C8: the split law and trailing-fragment law evaluated on
`"xy\nz"`, together with the spec's `"a\nb\nc"` example. -/
theorem C8_witness :
    readAllRecords (['x', 'y'] ++ '\n' :: ['z']) = ['x', 'y'] :: readAllRecords ['z'] ∧
    readAllRecords ['x', 'y'] = [['x', 'y']] ∧
    textLineRecords "a\nb\nc" = ["a", "b", "c"] := by
  have h := C8_textline_decoder ['x', 'y'] ['z'] (by decide)
  exact ⟨h.1, h.2.1 (by decide), h.2.2.1⟩

/-- Claim C9: reader selection in the iterator constructor is a total
function of the format tag and defaults to the text-line reader: tags
`"RecordIO"` and `"TFRecord"` select their readers, and every other
string — including any invalid tag that bypassed boundary validation —
selects `TextLineRecordReader`; selection itself never fails. -/
theorem C9_selection_total_defaults_textline (f : String) :
    (f = "RecordIO" → selectReaderKind f = ReaderKind.RecordIOReader) ∧
    (f ≠ "RecordIO" → f = "TFRecord" → selectReaderKind f = ReaderKind.TFRecordReader) ∧
    (f ≠ "RecordIO" → f ≠ "TFRecord" → selectReaderKind f = ReaderKind.TextLineRecordReader) := by
  unfold selectReaderKind
  refine ⟨fun h => by rw [if_pos h],
          fun h1 h2 => by rw [if_neg h1, if_pos h2],
          fun h1 h2 => by rw [if_neg h1, if_neg h2]⟩

/-- Witness for C9: the invalid tag `"Parquet"` selects the text-line
reader. -/
theorem C9_witness : selectReaderKind "Parquet" = ReaderKind.TextLineRecordReader :=
  (C9_selection_total_defaults_textline "Parquet").2.2 (by decide) (by decide)

/-- Claim C10: `BuildPipeName` requires a non-empty base directory — with
an empty `channel_directory` the trailing-slash check indexes the string
out of bounds (modelled as `none`), and for every non-empty base
directory the function is defined and produces a path. -/
theorem C10_empty_base_precondition (c : String) (i : Nat) :
    buildPipeName "" c i = none ∧
    (∀ b : String, b.data ≠ [] → ∃ p, buildPipeName b c i = some p) := by
  refine ⟨rfl, fun b hb => ?_⟩
  obtain ⟨ch, hch⟩ := exists_getLast?_of_ne_nil hb
  exact ⟨_, buildPipeName_of_last hch c i⟩

/-- Witness for C10: the empty base directory yields no path, while the
non-empty base `"/opt/ml/input/data/train"` yields one. -/
theorem C10_witness :
    buildPipeName "" "train" 0 = none ∧
    (∃ p, buildPipeName "/opt/ml/input/data/train" "train" 0 = some p) :=
  ⟨(C10_empty_base_precondition "train" 0).1,
   (C10_empty_base_precondition "train" 0).2 "/opt/ml/input/data/train" (by decide)⟩

end PipeModeKernel
